import Mathlib

/-!
# lora-ddr: the DDR message-handling pipeline

A shallow embedding of `model/ddr/ddr.go` (package `ddr`) and proofs about it.

* Go strings and byte slices are finite byte sequences (`Str`); a byte is a
  natural number (below 256 for every value a Go program can hold).
* The functions of the Go standard library package `strings` that the program
  calls are embedded first, following their Go implementation.
* A Go function returning `(value, error)` is embedded with both results; a
  run-time panic (an out-of-range slice expression) is an explicit outcome.
* `json.Unmarshal`, `strconv.ParseFloat` and the HTTP lookup are collaborators
  of the pipeline and are parameters of the embedding (`Env`).
* For the question which floats the parser can return, `strconv.ParseFloat` is
  embedded from the Go library: its special values, its numeral syntax
  (`readFloat`, `underscoreOK`) and its hexadecimal conversion (`atofHex`); the
  decimal-to-binary conversion stays a parameter.
-/

namespace LoraDDR

/-! ## Data model -/

/-- A Go `string` or `[]byte`: a sequence of bytes. -/
abbrev Str := List Nat

/-- The UTF-8 bytes of a text literal, as the Go compiler stores it. -/
def bytesOf (s : String) : Str :=
  (s.toList.map String.utf8EncodeChar).flatten.map UInt8.toNat

/-- A Go `error` value built with `github.com/pkg/errors`: `errors.New msg`,
`errors.Wrap cause msg`, or an error produced by a collaborator. -/
inductive Error where
  | new (msg : String)
  | wrap (cause : Error) (msg : String)
  | external (what : String) (input : Str)
  deriving DecidableEq, Repr

/-- Outcome of running a Go function body: it returns a value or panics. -/
inductive Outcome (α : Type) where
  | returned (a : α)
  | panicked (msg : String)
  deriving DecidableEq, Repr

def DDRHEADER : Str := bytesOf "DDR"
def SEPARATOR : Str := bytesOf "|"
def UPLINKSUFFIX : Str := bytesOf "up"
def DOWNLINKSUFFIX : Str := bytesOf "down"

/-- The struct `DDRResponse` of ddr.go. -/
structure DDRResponse where
  Datarate : Str
  deriving DecidableEq, Repr

/-- The struct `LatLon` of ddr.go, over a type `F` of 64-bit floats. -/
structure LatLon (F : Type) where
  Latitude : F
  Longitude : F
  deriving DecidableEq, Repr

/-- Modelled from the spec: the struct `lora.UplinkMessage` (package
`model/lora`), of which the pipeline reads the port and the payload bytes. -/
structure UplinkMessage where
  Port : Nat
  Payload : Str
  deriving DecidableEq, Repr

/-- Modelled from the spec: the struct `lora.DownlinkMessage` (package
`model/lora`): port, confirmation flag and payload bytes. -/
structure DownlinkMessage where
  Port : Nat
  Confirmed : Bool
  Payload : Str
  deriving DecidableEq, Repr

/-! ## Go standard library: package `strings`, slice expressions -/

/-- Go `strings.HasPrefix`: `len(s) >= len(prefix) && s[:len(prefix)] == prefix`. -/
def HasPrefix (s pre : Str) : Bool :=
  decide (pre.length ≤ s.length) && (s.take pre.length == pre)

/-- Go `strings.HasSuffix`: `len(s) >= len(suffix) && s[len(s)-len(suffix):] == suffix`. -/
def HasSuffix (s suf : Str) : Bool :=
  decide (suf.length ≤ s.length) && (s.drop (s.length - suf.length) == suf)

/-- Go `strings.Index` scanning from the left: the index of the first instance
of `sub` in `s`, `none` for Go's `-1`. -/
def indexScan (sub : Str) : Str → Option Nat
  | [] => if sub = [] then some 0 else none
  | c :: t => if HasPrefix (c :: t) sub then some 0 else (indexScan sub t).map (· + 1)

/-- Go `strings.Index`. -/
def Index (s sub : Str) : Option Nat := indexScan sub s

/-- Go `strings.Contains`: `Index(s, substr) >= 0`. -/
def Contains (s sub : Str) : Bool := (Index s sub).isSome

/-- Go `bytealg.CountString`: the number of bytes of `s` equal to `c`. -/
def CountString : Str → Nat → Nat
  | [], _ => 0
  | x :: t, c => (if x = c then 1 else 0) + CountString t c

/-- The general loop of Go `strings.Count`: repeatedly find the next instance
and continue after it. `fuel` bounds the iterations (each consumes a byte). -/
def countLoop (sub : Str) : Nat → Str → Nat → Nat
  | 0, _, n => n
  | fuel + 1, s, n =>
    match Index s sub with
    | none => n
    | some i => countLoop sub fuel (s.drop (i + sub.length)) (n + 1)

/-- Go `strings.Count`: the number of non-overlapping instances of `sub` in `s`.
For the empty `sub` Go returns the number of UTF-8 runes plus one; that branch
is given here for single-byte runes only and is never taken by this program,
whose separator is the one-byte constant `SEPARATOR`. -/
def Count (s sub : Str) : Nat :=
  match sub with
  | [] => s.length + 1
  | [c] => CountString s c
  | _ => countLoop sub (s.length + 1) s 0

/-- The loop of Go `strings.genSplit` with `sepSave = 0`: at most `k` further
cuts, each at the next instance of `sep`. -/
def genSplitLoop (sep : Str) : Nat → Str → List Str
  | 0, s => [s]
  | k + 1, s =>
    match Index s sep with
    | none => [s]
    | some m => s.take m :: genSplitLoop sep k (s.drop (m + sep.length))

/-- Go `strings.Split s sep`, which is `genSplit(s, sep, 0, -1)`: `n` becomes
`Count(s, sep) + 1`, capped at `len(s) + 1`. For the empty `sep` Go explodes
`s` into UTF-8 sequences; that branch is given here for single-byte runes only
and is never taken by this program. -/
def Split (s sep : Str) : List Str :=
  match sep with
  | [] => s.map (fun c => [c])
  | _ => genSplitLoop sep (min (Count s sep + 1) (s.length + 1) - 1) s

/-- Go `strings.TrimSuffix`: `s` without the trailing `suffix`, or `s` itself. -/
def TrimSuffix (s suf : Str) : Str :=
  if HasSuffix s suf then s.take (s.length - suf.length) else s

/-- Go `strings.Join`: the elements concatenated with `sep` between them. -/
def Join : List Str → Str → Str
  | [], _ => []
  | [a], _ => a
  | a :: b :: rest, sep => a ++ sep ++ Join (b :: rest) sep

/-- Go slice expression `s[lo:hi]` on a string, with `int` bounds: it panics
unless `0 ≤ lo ≤ hi ≤ len(s)`. -/
def sliceStr (s : Str) (lo hi : Int) : Outcome Str :=
  if 0 ≤ lo ∧ lo ≤ hi ∧ hi ≤ (s.length : Int) then
    .returned ((s.drop lo.toNat).take (hi.toNat - lo.toNat))
  else
    .panicked "slice bounds out of range"

/-! ## The functions of ddr.go -/

/-- The function `isValidDDRRequest` of ddr.go. -/
def isValidDDRRequest (payload : Str) : Bool :=
  let strPayload := payload
  if !(HasPrefix strPayload DDRHEADER && Contains strPayload SEPARATOR) then
    false
  else if Count strPayload SEPARATOR != 2 then
    false
  else
    true

/-- The function `getLatLon` of ddr.go; `ParseFloat s` stands for
`strconv.ParseFloat(s, 64)`. The pattern `[_, r1, r2]` is `len(request) == 3`
with `r1 = request[1]` and `r2 = request[2]`. -/
def getLatLon {F : Type} (ParseFloat : Str → Except Error F) (payload : Str) :
    Except Error (LatLon F) :=
  let request := Split payload SEPARATOR
  match request with
  | [_, r1, r2] =>
    match ParseFloat r1 with
    | .error err => .error (Error.wrap err "invalid latitude in ddr request")
    | .ok lat =>
      match ParseFloat r2 with
      | .error err => .error (Error.wrap err "invalid longitude in ddr request")
      | .ok lon => .ok { Latitude := lat, Longitude := lon }
  | _ => .error (Error.new "invalid ddr request")

/-- The function `generateDownlinkMessage` of ddr.go. The slice expression
`response.Datarate[2 : len(response.Datarate)-5]` may panic; otherwise the
function returns the message and a nil error. -/
def generateDownlinkMessage (response : DDRResponse) :
    Outcome (DownlinkMessage × Option Error) :=
  match sliceStr response.Datarate 2 ((response.Datarate.length : Int) - 5) with
  | .panicked msg => .panicked msg
  | .returned middle =>
    let buffer := DDRHEADER ++ SEPARATOR ++ middle
    let downlink : DownlinkMessage := { Port := 1, Confirmed := true, Payload := buffer }
    .returned (downlink, none)

/-- The function `generateDownlinkTopic` of ddr.go, returning `(topic, err)`. -/
def generateDownlinkTopic (uplinkTopic : Str) : Str × Option Error :=
  let topic := uplinkTopic
  if !HasSuffix topic UPLINKSUFFIX then
    ([], some (Error.new "invalid uplink topic"))
  else
    let topic := TrimSuffix topic UPLINKSUFFIX
    let topic := Join [topic, DOWNLINKSUFFIX] []
    (topic, none)

/-- Severity of a log record (package `github.com/apex/log`). -/
inductive Level where
  | debug
  | warn
  deriving DecidableEq, Repr

/-- What one run of the handler does to the outside world, in order: log
records, calls of `queryDDR` (the HTTP lookup) and calls of `client.Publish`. -/
inductive Effect (F : Type) where
  | log (level : Level) (msg : String) (err : Option Error)
  | lookup (coordinates : LatLon F)
  | publish (topic : Str) (downlink : DownlinkMessage)
  deriving DecidableEq, Repr

/-- The collaborators of the pipeline: `json.Unmarshal` into an uplink
envelope, `strconv.ParseFloat(·, 64)`, and the answer of `queryDDR` (URL
construction, HTTP GET and JSON decoding of the service response). -/
structure Env (F : Type) where
  Unmarshal : Str → Except Error UplinkMessage
  ParseFloat : Str → Except Error F
  queryDDR : LatLon F → Except Error DDRResponse

/-- One run of `MessageHandler`: the effects performed, and whether the
function returned to its caller or panicked. -/
structure Run (F : Type) where
  effects : List (Effect F)
  completion : Outcome Unit

/-- The function `getUplinkMessage` of ddr.go. -/
def getUplinkMessage (Unmarshal : Str → Except Error UplinkMessage) (payload : Str) :
    Except Error UplinkMessage :=
  match Unmarshal payload with
  | .error err => .error err
  | .ok uplink => .ok uplink

/-- The function `MessageHandler` of ddr.go, on a message with the given topic
and payload. -/
def MessageHandler {F : Type} (env : Env F) (messageTopic messagePayload : Str) : Run F :=
  match getUplinkMessage env.Unmarshal messagePayload with
  | .error err =>
    ⟨[.log .warn "can't unmarshall payload to uplink message" (some err)], .returned ()⟩
  | .ok uplink =>
    if !isValidDDRRequest uplink.Payload then
      ⟨[.log .debug "received message other than ddr request" none], .returned ()⟩
    else
      match getLatLon env.ParseFloat uplink.Payload with
      | .error err =>
        ⟨[.log .warn "can't retrieve coordinates from ddr request" (some err)], .returned ()⟩
      | .ok coordinates =>
        match env.queryDDR coordinates with
        | .error err =>
          ⟨[.lookup coordinates, .log .warn "ddr request failed" (some err)], .returned ()⟩
        | .ok response =>
          match generateDownlinkMessage response with
          | .panicked msg => ⟨[.lookup coordinates], .panicked msg⟩
          | .returned (_, some err) =>
            ⟨[.lookup coordinates, .log .warn "could not generate downlink message" (some err)],
              .returned ()⟩
          | .returned (downlink, none) =>
            let (topic, err) := generateDownlinkTopic messageTopic
            let routeLog : List (Effect F) :=
              match err with
              | some e => [.log .warn "could not generate downlink topic" (some e)]
              | none => []
            ⟨[.lookup coordinates] ++ routeLog ++
              [.log .debug "set ddr" none, .publish topic downlink], .returned ()⟩

/-- The calls of `client.Publish` in a run, in order. -/
def publishes {F : Type} : List (Effect F) → List (Str × DownlinkMessage)
  | [] => []
  | .publish topic downlink :: rest => (topic, downlink) :: publishes rest
  | _ :: rest => publishes rest

/-- The calls of `queryDDR` in a run, in order. -/
def lookups {F : Type} : List (Effect F) → List (LatLon F)
  | [] => []
  | .lookup c :: rest => c :: lookups rest
  | _ :: rest => lookups rest

/-! ## `strconv.ParseFloat` on special values -/

/-- A 64-bit float as `strconv.ParseFloat` produces it: not-a-number, an
infinity, or a finite number (of a type `N` left to the numeric conversion). -/
inductive Float64 (N : Type) where
  | NaN
  | Inf (negative : Bool)
  | finite (x : N)
  deriving DecidableEq, Repr

/-- Whether a float is neither NaN nor an infinity. -/
def Float64.isFinite {N : Type} : Float64 N → Bool
  | .finite _ => true
  | _ => false

/-- ASCII lower-casing of one byte, as in Go `strconv`:
`if 'A' <= c && c <= 'Z' { c += 'a' - 'A' }`. -/
def lowerByte (c : Nat) : Nat := if 65 ≤ c ∧ c ≤ 90 then c + 32 else c

/-- Go `strconv.equalIgnoreCase`: equality of two strings up to ASCII case. -/
def equalIgnoreCase : Str → Str → Bool
  | [], [] => true
  | c1 :: s1, c2 :: s2 => lowerByte c1 == lowerByte c2 && equalIgnoreCase s1 s2
  | _, _ => false

/-- Go `strconv.special`, as documented for `ParseFloat`: the string "NaN" and
the possibly signed strings "Inf" and "Infinity" are the special values, and
case is ignored when matching. -/
def special {N : Type} (s : Str) : Option (Float64 N) :=
  if equalIgnoreCase s (bytesOf "nan") then some .NaN
  else if equalIgnoreCase s (bytesOf "inf") || equalIgnoreCase s (bytesOf "infinity") then
    some (.Inf false)
  else if equalIgnoreCase s (bytesOf "+inf") || equalIgnoreCase s (bytesOf "+infinity") then
    some (.Inf false)
  else if equalIgnoreCase s (bytesOf "-inf") || equalIgnoreCase s (bytesOf "-infinity") then
    some (.Inf true)
  else none

/-- The spellings, in lower case, that `strconv.ParseFloat` reads as NaN or as
an infinity. -/
def specialSpellings : List Str :=
  [bytesOf "nan", bytesOf "inf", bytesOf "infinity", bytesOf "+inf", bytesOf "+infinity",
   bytesOf "-inf", bytesOf "-infinity"]

/-- Go `strconv.ParseFloat(s, 64)`: special values first, then the numeric
conversion `atof` (a parameter), whose successful results are finite: on
overflow Go returns the error `ErrRange` next to the infinity. -/
def ParseFloat {N : Type} (atof : Str → Except Error N) (s : Str) :
    Except Error (Float64 N) :=
  match special s with
  | some v => .ok v
  | none =>
    match atof s with
    | .error err => .error err
    | .ok x => .ok (.finite x)

/-! ## A numeric conversion to run the pipeline on concrete inputs -/

/-- A decimal numeral read exactly: `mantissa / 10 ^ scale`, negated when
`negative`. -/
structure Decimal where
  negative : Bool
  mantissa : Nat
  scale : Nat
  deriving DecidableEq, Repr

/-- Whether a byte is an ASCII digit. -/
def isDigit (c : Nat) : Bool := decide (48 ≤ c ∧ c ≤ 57)

/-- The number written by a string of ASCII digits. -/
def digitsValue (s : Str) : Nat := s.foldl (fun acc c => acc * 10 + (c - 48)) 0

/-- The unsigned part of `decimalAtof`: `digits` or `digits.digits`. -/
def decimalUnsigned (negative : Bool) (s whole : Str) : Except Error Decimal :=
  match Split s (bytesOf ".") with
  | [i] =>
    if i ≠ [] ∧ i.all isDigit then .ok ⟨negative, digitsValue i, 0⟩
    else .error (Error.external "strconv.ParseFloat: invalid syntax" whole)
  | [i, f] =>
    if i ++ f ≠ [] ∧ (i ++ f).all isDigit then .ok ⟨negative, digitsValue (i ++ f), f.length⟩
    else .error (Error.external "strconv.ParseFloat: invalid syntax" whole)
  | _ => .error (Error.external "strconv.ParseFloat: invalid syntax" whole)

/-- A stand-in for the numeric conversion behind `strconv.ParseFloat`, used only
to run the embedding on concrete inputs: it reads the plain decimal numerals
`[+-]digits[.digits]` exactly and rejects everything else with a syntax error.
(Go's conversion also reads exponents and rounds to the nearest binary64.) -/
def decimalAtof (s : Str) : Except Error Decimal :=
  match s with
  | 43 :: rest => decimalUnsigned false rest s
  | 45 :: rest => decimalUnsigned true rest s
  | _ => decimalUnsigned false s s

/-- An environment to run the handler on concrete inputs: the envelope is the
payload itself on port 1, floats are parsed by `ParseFloat decimalAtof`, and
the DDR service answers every lookup with the given datarate. -/
def sampleEnv (datarate : Str) : Env (Float64 Decimal) where
  Unmarshal := fun p => .ok { Port := 1, Payload := p }
  ParseFloat := ParseFloat decimalAtof
  queryDDR := fun _ => .ok { Datarate := datarate }

/-! ## `strconv.ParseFloat` on numerals: syntax and hexadecimal conversion -/

/-- Go `strconv.lower`: `c | ('x' - 'X')`, the lower-case form of an ASCII letter. -/
def lower (c : Nat) : Nat := c ||| 32

/-- The local variables of the digit loop of Go `strconv.readFloat`. -/
structure DigitState where
  mantissa : Nat
  nd : Nat
  ndMant : Nat
  dp : Int
  sawdot : Bool
  sawdigits : Bool
  trunc : Bool
  underscores : Bool
  deriving DecidableEq, Repr

/-- The digit loop of Go `strconv.readFloat` (label `loop`): it consumes
underscores, one dot and the digits of the base, and stops at the first other
byte; the result is the state and the unread rest of the string. -/
def readDigits (base maxMantDigits : Nat) : DigitState → Str → DigitState × Str
  | st, [] => (st, [])
  | st, c :: rest =>
    if c = '_'.toNat then
      readDigits base maxMantDigits { st with underscores := true } rest
    else if c = '.'.toNat then
      if st.sawdot then (st, c :: rest)
      else readDigits base maxMantDigits { st with sawdot := true, dp := st.nd } rest
    else if '0'.toNat ≤ c ∧ c ≤ '9'.toNat then
      if c = '0'.toNat ∧ st.nd = 0 then
        readDigits base maxMantDigits { st with sawdigits := true, dp := st.dp - 1 } rest
      else if st.ndMant < maxMantDigits then
        readDigits base maxMantDigits
          { st with sawdigits := true, nd := st.nd + 1,
                    mantissa := st.mantissa * base + (c - '0'.toNat),
                    ndMant := st.ndMant + 1 } rest
      else if c ≠ '0'.toNat then
        readDigits base maxMantDigits
          { st with sawdigits := true, nd := st.nd + 1, trunc := true } rest
      else
        readDigits base maxMantDigits { st with sawdigits := true, nd := st.nd + 1 } rest
    else if base = 16 ∧ 'a'.toNat ≤ lower c ∧ lower c ≤ 'f'.toNat then
      if st.ndMant < maxMantDigits then
        readDigits base maxMantDigits
          { st with sawdigits := true, nd := st.nd + 1,
                    mantissa := st.mantissa * 16 + (lower c - 'a'.toNat + 10),
                    ndMant := st.ndMant + 1 } rest
      else
        readDigits base maxMantDigits
          { st with sawdigits := true, nd := st.nd + 1, trunc := true } rest
    else (st, c :: rest)

/-- The exponent loop of Go `strconv.readFloat`: digits and underscores, the
value capped once it reaches 10000; the result is `e`, the underscore flag and
the unread rest. -/
def readExponent : Nat → Bool → Str → Nat × Bool × Str
  | e, underscores, [] => (e, underscores, [])
  | e, underscores, c :: rest =>
    if ('0'.toNat ≤ c ∧ c ≤ '9'.toNat) ∨ c = '_'.toNat then
      if c = '_'.toNat then readExponent e true rest
      else if e < 10000 then readExponent (e * 10 + c - '0'.toNat) underscores rest
      else readExponent e underscores rest
    else (e, underscores, c :: rest)

/-- The loop of Go `strconv.underscoreOK` over the number proper; `saw` is
'^', '0', '_' or '!' as in the source. -/
def underscoreLoop (hex : Bool) : Nat → Str → Bool
  | saw, [] => saw != '_'.toNat
  | saw, c :: rest =>
    if ('0'.toNat ≤ c ∧ c ≤ '9'.toNat) ∨
        (hex = true ∧ 'a'.toNat ≤ lower c ∧ lower c ≤ 'f'.toNat) then
      underscoreLoop hex '0'.toNat rest
    else if c = '_'.toNat then
      if saw ≠ '0'.toNat then false else underscoreLoop hex '_'.toNat rest
    else if saw = '_'.toNat then false
    else underscoreLoop hex '!'.toNat rest

/-- Go `strconv.underscoreOK`: underscores appear only between digits or
between a base prefix and a digit. -/
def underscoreOK (s : Str) : Bool :=
  let s := match s with
    | c :: t => if c = '-'.toNat ∨ c = '+'.toNat then t else s
    | [] => s
  match s with
  | z :: x :: t =>
    if z = '0'.toNat ∧
        (lower x = 'b'.toNat ∨ lower x = 'o'.toNat ∨ lower x = 'x'.toNat) then
      underscoreLoop (lower x == 'x'.toNat) '0'.toNat t
    else underscoreLoop false '^'.toNat s
  | _ => underscoreLoop false '^'.toNat s

/-- The results of a successful Go `strconv.readFloat` (`ok == true`); `n` is
the number of bytes read (the result `i`). -/
structure FloatRead where
  mantissa : Nat
  exp : Int
  neg : Bool
  trunc : Bool
  hex : Bool
  n : Nat
  deriving DecidableEq, Repr

/-- The part of Go `strconv.readFloat` after the digit loop: the optional
exponent (mandatory for base 16), the final exponent and the underscore check.
`s` is the whole string, `rest` the part after the digits. -/
def readFloatTail (s : Str) (neg hex : Bool) (st : DigitState) (rest : Str) :
    Option FloatRead :=
  if !st.sawdigits then none
  else
    let dp : Int := if !st.sawdot then (st.nd : Int) else st.dp
    let dp : Int := if hex then dp * 4 else dp
    let ndMant : Nat := if hex then st.ndMant * 4 else st.ndMant
    let expChar : Nat := if hex then 'p'.toNat else 'e'.toNat
    let finish (dp : Int) (underscores : Bool) (rest : Str) : Option FloatRead :=
      let exp : Int := if st.mantissa ≠ 0 then dp - (ndMant : Int) else 0
      let i := s.length - rest.length
      if underscores && !underscoreOK (s.take i) then none
      else some { mantissa := st.mantissa, exp := exp, neg := neg, trunc := st.trunc,
                  hex := hex, n := i }
    match rest with
    | c :: rest1 =>
      if lower c = expChar then
        match rest1 with
        | [] => none
        | d :: rest2 =>
          let esign : Int := if d = '-'.toNat then -1 else 1
          let rest3 := if d = '+'.toNat ∨ d = '-'.toNat then rest2 else d :: rest2
          match rest3 with
          | [] => none
          | f :: _ =>
            if f < '0'.toNat ∨ f > '9'.toNat then none
            else
              match readExponent 0 st.underscores rest3 with
              | (e, underscores, rest4) => finish (dp + (e : Int) * esign) underscores rest4
      else if hex then none
      else finish dp st.underscores rest
    | [] => if hex then none else finish dp st.underscores rest

/-- Go `strconv.readFloat`: the optional sign, the base prefix `0x` (only when
a further byte follows it), the digits, the exponent; `none` when `ok` is false. -/
def readFloat (s : Str) : Option FloatRead :=
  match s with
  | [] => none
  | c :: t =>
    let neg : Bool := c == '-'.toNat
    let s1 : Str := if c = '+'.toNat ∨ c = '-'.toNat then t else s
    let hex : Bool :=
      match s1 with
      | z :: x :: _ :: _ => z == '0'.toNat && lower x == 'x'.toNat
      | _ => false
    let s2 : Str := if hex then s1.drop 2 else s1
    let start : DigitState :=
      { mantissa := 0, nd := 0, ndMant := 0, dp := 0, sawdot := false, sawdigits := false,
        trunc := false, underscores := false }
    match readDigits (if hex then 16 else 10) (if hex then 16 else 19) start s2 with
    | (st, rest) => readFloatTail s neg hex st rest

/-- The first loop of Go `strconv.atofHex`: shift the mantissa left until bit
54 is set (`mantbits + 2` with `mantbits = 52`). -/
def hexShiftUp : Nat → Nat → Int → Nat × Int
  | 0, mantissa, exp => (mantissa, exp)
  | fuel + 1, mantissa, exp =>
    if mantissa ≠ 0 ∧ mantissa >>> 54 = 0 then hexShiftUp fuel (mantissa <<< 1) (exp - 1)
    else (mantissa, exp)

/-- The second loop of Go `strconv.atofHex`: shift right, keeping a sticky
bit, while a bit above bit 54 is set. -/
def hexShiftDown : Nat → Nat → Int → Nat × Int
  | 0, mantissa, exp => (mantissa, exp)
  | fuel + 1, mantissa, exp =>
    if mantissa >>> 55 ≠ 0 then
      hexShiftDown fuel (mantissa >>> 1 ||| mantissa &&& 1) (exp + 1)
    else (mantissa, exp)

/-- The third loop of Go `strconv.atofHex`: denormalize while the exponent is
below `minExp - 2 = -1024`. -/
def hexDenormalize : Nat → Nat → Int → Nat × Int
  | 0, mantissa, exp => (mantissa, exp)
  | fuel + 1, mantissa, exp =>
    if mantissa > 1 ∧ exp < -1024 then
      hexDenormalize fuel (mantissa >>> 1 ||| mantissa &&& 1) (exp + 1)
    else (mantissa, exp)

/-- Go `strconv.atofHex` for `float64info` (`mantbits = 52`, `expbits = 11`,
`bias = -1023`, so `maxExp = 1023` and `minExp = -1022`): the IEEE-754 bits of
the float nearest to `mantissa * 2 ^ exp`, and whether the range error is
returned next to them. Each loop runs at most 64 times on a 64-bit mantissa. -/
def atofHex (mantissa : Nat) (exp : Int) (neg trunc : Bool) : Nat × Bool :=
  let exp := exp + 52
  match hexShiftUp 64 mantissa exp with
  | (mantissa, exp) =>
    let mantissa := if trunc then mantissa ||| 1 else mantissa
    match hexShiftDown 64 mantissa exp with
    | (mantissa, exp) =>
      match hexDenormalize 64 mantissa exp with
      | (mantissa, exp) =>
        let round := mantissa &&& 3
        let mantissa := mantissa >>> 2
        let round := round ||| (mantissa &&& 1)
        let exp := exp + 2
        let carry : Bool := round == 3 && mantissa + 1 == 1 <<< 53
        let mantissa :=
          if round = 3 then (if carry then (mantissa + 1) >>> 1 else mantissa + 1)
          else mantissa
        let exp := if carry then exp + 1 else exp
        let exp := if mantissa >>> 52 = 0 then -1023 else exp
        let overflow : Bool := decide (exp > 1023)
        let mantissa := if overflow then 1 <<< 52 else mantissa
        let exp := if overflow then 1024 else exp
        let bits := mantissa &&& (1 <<< 52 - 1)
        let bits := bits ||| (((exp + 1023).toNat &&& (1 <<< 11 - 1)) <<< 52)
        let bits := if neg then bits ||| (1 <<< 63) else bits
        (bits, overflow)

/-- A finite float as `strconv.ParseFloat` obtains it: from a hexadecimal
numeral, as IEEE-754 bits, or from a decimal numeral, as the result `d` of the
decimal conversion. -/
inductive Finite64 (D : Type) where
  | hexadecimal (bits : Nat)
  | decimal (d : D)
  deriving DecidableEq, Repr

/-- Go `strconv.atof64` after `special`, with the check `n == len(s)` of
`ParseFloat`: a syntax error unless `readFloat` reads the whole string; then
`atofHex` for a hexadecimal numeral (an error on overflow), and for a decimal
numeral the decimal conversion `conv` (a parameter: Go's exact, Eisel-Lemire
and multiprecision paths, which return the nearest float64 or a range error). -/
def atof64 {D : Type} (conv : Str → Except Error D) (s : Str) : Except Error (Finite64 D) :=
  match readFloat s with
  | none => .error (Error.external "strconv.ParseFloat: invalid syntax" s)
  | some r =>
    if r.n ≠ s.length then .error (Error.external "strconv.ParseFloat: invalid syntax" s)
    else if r.hex then
      match atofHex r.mantissa r.exp r.neg r.trunc with
      | (_, true) => .error (Error.external "strconv.ParseFloat: value out of range" s)
      | (bits, false) => .ok (.hexadecimal bits)
    else
      match conv s with
      | .error err => .error err
      | .ok d => .ok (.decimal d)

/-- Whether a field is written as a hexadecimal numeral: after an optional
sign come the characters `0x` or `0X` and at least one more byte. -/
def hasHexPrefix (s : Str) : Bool :=
  let s1 : Str :=
    match s with
    | c :: t => if c = '+'.toNat ∨ c = '-'.toNat then t else s
    | [] => s
  match s1 with
  | z :: x :: _ :: _ => z == '0'.toNat && (x == 'x'.toNat || x == 'X'.toNat)
  | _ => false

/-- How `strconv.ParseFloat` obtains the float `v` from the field `s`: as a
special value from one of the special spellings; as a finite float from a
hexadecimal numeral, by `atofHex`; or as a finite float from a decimal numeral,
by the decimal conversion `conv`. -/
def FieldOrigin {D : Type} (conv : Str → Except Error D) (s : Str)
    (v : Float64 (Finite64 D)) : Prop :=
  (s.map lowerByte ∈ specialSpellings ∧ v.isFinite = false ∧ special s = some v) ∨
  (s.map lowerByte ∉ specialSpellings ∧ hasHexPrefix s = true ∧
    ∃ r bits, readFloat s = some r ∧ r.n = s.length ∧ r.hex = true ∧
      atofHex r.mantissa r.exp r.neg r.trunc = (bits, false) ∧
      v = .finite (.hexadecimal bits)) ∨
  (s.map lowerByte ∉ specialSpellings ∧ hasHexPrefix s = false ∧
    ∃ r d, readFloat s = some r ∧ r.n = s.length ∧ r.hex = false ∧
      conv s = .ok d ∧ v = .finite (.decimal d))


/-! ## Facts about the library functions on a one-byte separator -/

theorem CountString_eq_count (s : Str) (c : Nat) : CountString s c = s.count c := by
  induction s with
  | nil => rfl
  | cons x t ih =>
    by_cases hx : x = c
    · subst hx
      simp [CountString, ih, Nat.add_comm]
    · have hne : (x == c) = false := by simpa using hx
      simp [CountString, ih, hx, List.count_cons, hne]

theorem HasPrefix_cons_single (x : Nat) (t : Str) (c : Nat) :
    HasPrefix (x :: t) [c] = decide (x = c) := by
  by_cases hx : x = c <;> simp [HasPrefix, hx]

theorem indexScan_single_of_not_mem (c : Nat) (s : Str) (h : c ∉ s) :
    indexScan [c] s = none := by
  induction s with
  | nil => simp [indexScan]
  | cons x t ih =>
    have hx : x ≠ c := fun e => h (by simp [e])
    have ht : c ∉ t := fun m => h (List.mem_cons_of_mem _ m)
    simp [indexScan, HasPrefix_cons_single, hx, ih ht]

theorem indexScan_single_append (c : Nat) (h t : Str) (hh : c ∉ h) :
    indexScan [c] (h ++ c :: t) = some h.length := by
  induction h with
  | nil => simp [indexScan, HasPrefix_cons_single]
  | cons x r ih =>
    have hx : x ≠ c := fun e => hh (by simp [e])
    have hr : c ∉ r := fun m => hh (List.mem_cons_of_mem _ m)
    simp [indexScan, HasPrefix_cons_single, hx, ih hr]

theorem first_occurrence (c : Nat) (s : Str) (h : c ∈ s) :
    ∃ a b, s = a ++ c :: b ∧ c ∉ a := by
  induction s with
  | nil => simp at h
  | cons x t ih =>
    by_cases hx : x = c
    · exact ⟨[], t, by simp [hx], by simp⟩
    · have ht : c ∈ t := by
        rcases List.mem_cons.mp h with e | m
        · exact absurd e.symm hx
        · exact m
      obtain ⟨a, b, hab, ha⟩ := ih ht
      refine ⟨x :: a, b, by simp [hab], ?_⟩
      intro m
      rcases List.mem_cons.mp m with e | m
      · exact hx e.symm
      · exact ha m

theorem genSplitLoop_of_not_mem (c : Nat) (k : Nat) (s : Str) (h : c ∉ s) :
    genSplitLoop [c] k s = [s] := by
  cases k with
  | zero => rfl
  | succ k => simp [genSplitLoop, Index, indexScan_single_of_not_mem c s h]

theorem genSplitLoop_append (c : Nat) (k : Nat) (h t : Str) (hh : c ∉ h) :
    genSplitLoop [c] (k + 1) (h ++ c :: t) = h :: genSplitLoop [c] k t := by
  simp [genSplitLoop, Index, indexScan_single_append c h t hh]

theorem length_genSplitLoop (c : Nat) :
    ∀ (k : Nat) (s : Str), s.count c ≤ k → (genSplitLoop [c] k s).length = s.count c + 1 := by
  intro k
  induction k with
  | zero =>
    intro s hs
    have h0 : s.count c = 0 := Nat.le_zero.mp hs
    simp [genSplitLoop, h0]
  | succ k ih =>
    intro s hs
    by_cases hm : c ∈ s
    · obtain ⟨a, b, hab, ha⟩ := first_occurrence c s hm
      subst hab
      have hca : a.count c = 0 := List.count_eq_zero.mpr ha
      have hcount : (a ++ c :: b).count c = b.count c + 1 := by
        simp [List.count_append, hca]
      rw [genSplitLoop_append c k a b ha, hcount]
      rw [hcount] at hs
      simp [ih b (by omega)]
    · have h0 : s.count c = 0 := List.count_eq_zero.mpr hm
      simp [genSplitLoop_of_not_mem c _ s hm, h0]

theorem Split_single (s : Str) (c : Nat) :
    Split s [c] = genSplitLoop [c] (s.count c) s := by
  have hle : s.count c ≤ s.length := List.count_le_length _ _
  simp only [Split, Count, CountString_eq_count]
  congr 1
  omega

theorem length_Split_single (s : Str) (c : Nat) :
    (Split s [c]).length = s.count c + 1 := by
  rw [Split_single]
  exact length_genSplitLoop c _ s (Nat.le_refl _)

theorem Split_three (c : Nat) (h a b : Str) (hh : c ∉ h) (ha : c ∉ a) (hb : c ∉ b) :
    Split (h ++ c :: (a ++ c :: b)) [c] = [h, a, b] := by
  have e0 : ∀ l : Str, c ∉ l → l.count c = 0 := fun l hl => List.count_eq_zero.mpr hl
  have hcount : (h ++ c :: (a ++ c :: b)).count c = 2 := by
    simp [List.count_append, e0 h hh, e0 a ha, e0 b hb]
  rw [Split_single, hcount, genSplitLoop_append c 1 h _ hh, genSplitLoop_append c 0 a b ha]
  rfl

theorem two_occurrences (c : Nat) (s : Str) (h2 : s.count c = 2) :
    ∃ h a b, s = h ++ c :: (a ++ c :: b) ∧ c ∉ h ∧ c ∉ a ∧ c ∉ b := by
  have hm : c ∈ s := List.count_pos_iff.mp (by omega)
  obtain ⟨h, r, hs, hh⟩ := first_occurrence c s hm
  subst hs
  have hch : h.count c = 0 := List.count_eq_zero.mpr hh
  have hr1 : r.count c = 1 := by
    simp [List.count_append, hch] at h2
    omega
  have hmr : c ∈ r := List.count_pos_iff.mp (by omega)
  obtain ⟨a, b, hr, ha⟩ := first_occurrence c r hmr
  subst hr
  have hca : a.count c = 0 := List.count_eq_zero.mpr ha
  have hb0 : b.count c = 0 := by
    simp [List.count_append, hca] at hr1
    omega
  exact ⟨h, a, b, rfl, hh, ha, List.count_eq_zero.mp hb0⟩

theorem Contains_single (s : Str) (c : Nat) : Contains s [c] = decide (c ∈ s) := by
  by_cases hm : c ∈ s
  · obtain ⟨a, b, hab, ha⟩ := first_occurrence c s hm
    subst hab
    simp [Contains, Index, indexScan_single_append c a b ha]
  · simp [Contains, Index, indexScan_single_of_not_mem c s hm, hm]

/-! ## Prefixes and suffixes -/

theorem HasPrefix_iff (s pre : Str) : HasPrefix s pre = true ↔ ∃ rest, s = pre ++ rest := by
  constructor
  · intro h
    simp only [HasPrefix, Bool.and_eq_true, decide_eq_true_eq, beq_iff_eq] at h
    refine ⟨s.drop pre.length, ?_⟩
    conv_lhs => rw [← List.take_append_drop pre.length s]
    rw [h.2]
  · rintro ⟨rest, rfl⟩
    simp [HasPrefix]

theorem HasSuffix_iff (s suf : Str) : HasSuffix s suf = true ↔ ∃ p, s = p ++ suf := by
  constructor
  · intro h
    simp only [HasSuffix, Bool.and_eq_true, decide_eq_true_eq, beq_iff_eq] at h
    refine ⟨s.take (s.length - suf.length), ?_⟩
    conv_lhs => rw [← List.take_append_drop (s.length - suf.length) s]
    rw [h.2]
  · rintro ⟨p, rfl⟩
    simp [HasSuffix]

theorem SEPARATOR_eq : SEPARATOR = [124] := by decide

theorem pipe_eq : '|'.toNat = 124 := by decide

theorem isValidDDRRequest_eq (payload : Str) :
    isValidDDRRequest payload =
      (HasPrefix payload DDRHEADER && decide (payload.count 124 = 2)) := by
  have hc : Count payload SEPARATOR = payload.count 124 := by
    rw [SEPARATOR_eq]
    exact CountString_eq_count payload _
  have hcont : Contains payload SEPARATOR = decide (124 ∈ payload) := by
    rw [SEPARATOR_eq]
    exact Contains_single payload _
  simp only [isValidDDRRequest, hc, hcont]
  by_cases h2 : payload.count 124 = 2
  · have hm : 124 ∈ payload := List.count_pos_iff.mp (by omega)
    cases hp : HasPrefix payload DDRHEADER <;> simp [h2, hm]
  · cases hp : HasPrefix payload DDRHEADER <;> simp [h2]

/-- C1: `isValidDDRRequest` accepts a payload exactly when it starts with the
literal "DDR" and holds the separator "|" exactly twice, and rejects every other
payload; "hello world" is rejected and "DDR|50.858955|4.671778" is accepted. -/
theorem isValidDDRRequest_iff_header_and_two_separators :
    (∀ payload : Str, isValidDDRRequest payload = true ↔
      ((∃ rest, payload = bytesOf "DDR" ++ rest) ∧ payload.count '|'.toNat = 2)) ∧
    (∀ payload : Str, isValidDDRRequest payload = false ↔
      ((¬ ∃ rest, payload = bytesOf "DDR" ++ rest) ∨ payload.count '|'.toNat ≠ 2)) ∧
    isValidDDRRequest (bytesOf "hello world") = false ∧
    isValidDDRRequest (bytesOf "DDR|50.858955|4.671778") = true := by
  have main : ∀ payload : Str, isValidDDRRequest payload = true ↔
      ((∃ rest, payload = bytesOf "DDR" ++ rest) ∧ payload.count '|'.toNat = 2) := by
    intro payload
    rw [isValidDDRRequest_eq, Bool.and_eq_true, HasPrefix_iff, decide_eq_true_eq, pipe_eq]
    rfl
  refine ⟨main, ?_, by decide, by decide⟩
  intro payload
  rw [← Bool.not_eq_true, main]
  tauto

/-- C2: on a topic `p ++ "up"` the function `generateDownlinkTopic` returns
`p ++ "down"` and no error; on a topic that does not end with "up" it returns
the empty topic and the error "invalid uplink topic"; "app/devices/dev1/up"
gives "app/devices/dev1/down". -/
theorem generateDownlinkTopic_replaces_suffix :
    (∀ p : Str, generateDownlinkTopic (p ++ bytesOf "up") = (p ++ bytesOf "down", none)) ∧
    (∀ topic : Str, (¬ ∃ p, topic = p ++ bytesOf "up") →
      generateDownlinkTopic topic = ([], some (Error.new "invalid uplink topic"))) ∧
    generateDownlinkTopic (bytesOf "app/devices/dev1/up") =
      (bytesOf "app/devices/dev1/down", none) := by
  refine ⟨?_, ?_, by decide⟩
  · intro p
    have hs : HasSuffix (p ++ bytesOf "up") UPLINKSUFFIX = true :=
      (HasSuffix_iff _ _).mpr ⟨p, rfl⟩
    have hl : UPLINKSUFFIX.length = 2 := by decide
    have hl2 : (bytesOf "up").length = 2 := by decide
    simp [generateDownlinkTopic, hs, TrimSuffix, Join, hl, hl2, DOWNLINKSUFFIX]
  · intro topic hno
    have hs : HasSuffix topic UPLINKSUFFIX = false := by
      rw [← Bool.not_eq_true, HasSuffix_iff]
      exact hno
    simp [generateDownlinkTopic, hs]

/-! ## The parser on a three-field payload -/

theorem payload_three_fields (h a b : Str) :
    h ++ bytesOf "|" ++ a ++ bytesOf "|" ++ b = h ++ 124 :: (a ++ 124 :: b) := by
  have e : bytesOf "|" = [124] := by decide
  simp [e]

theorem getLatLon_three {F : Type} (parse : Str → Except Error F) (h a b : Str)
    (hh : 124 ∉ h) (ha : 124 ∉ a) (hb : 124 ∉ b) :
    getLatLon parse (h ++ 124 :: (a ++ 124 :: b)) =
      match parse a with
      | .error err => .error (Error.wrap err "invalid latitude in ddr request")
      | .ok lat =>
        match parse b with
        | .error err => .error (Error.wrap err "invalid longitude in ddr request")
        | .ok lon => .ok { Latitude := lat, Longitude := lon } := by
  simp only [getLatLon, SEPARATOR_eq, Split_three 124 h a b hh ha hb]

/-- C3: on a payload `h|a|b` whose three fields hold no separator, `getLatLon`
fails with the error tagged "invalid latitude" when `parse a` fails (whatever
`b` is), else with the error tagged "invalid longitude" when `parse b` fails,
else succeeds with exactly `parse a` and `parse b`; the header `h` has no
influence on the result. -/
theorem getLatLon_on_three_fields {F : Type} (parse : Str → Except Error F) (h a b : Str)
    (hh : '|'.toNat ∉ h) (ha : '|'.toNat ∉ a) (hb : '|'.toNat ∉ b) :
    (∀ e, parse a = .error e →
      getLatLon parse (h ++ bytesOf "|" ++ a ++ bytesOf "|" ++ b) =
        .error (Error.wrap e "invalid latitude in ddr request")) ∧
    (∀ lat e, parse a = .ok lat → parse b = .error e →
      getLatLon parse (h ++ bytesOf "|" ++ a ++ bytesOf "|" ++ b) =
        .error (Error.wrap e "invalid longitude in ddr request")) ∧
    (∀ lat lon, parse a = .ok lat → parse b = .ok lon →
      getLatLon parse (h ++ bytesOf "|" ++ a ++ bytesOf "|" ++ b) =
        .ok { Latitude := lat, Longitude := lon }) ∧
    (∀ h2 : Str, '|'.toNat ∉ h2 →
      getLatLon parse (h2 ++ bytesOf "|" ++ a ++ bytesOf "|" ++ b) =
        getLatLon parse (h ++ bytesOf "|" ++ a ++ bytesOf "|" ++ b)) := by
  rw [pipe_eq] at hh ha hb
  refine ⟨?_, ?_, ?_, ?_⟩
  · intro e he
    rw [payload_three_fields, getLatLon_three parse h a b hh ha hb, he]
  · intro lat e hlat he
    rw [payload_three_fields, getLatLon_three parse h a b hh ha hb, hlat, he]
  · intro lat lon hlat hlon
    rw [payload_three_fields, getLatLon_three parse h a b hh ha hb, hlat, hlon]
  · intro h2 hh2
    rw [pipe_eq] at hh2
    rw [payload_three_fields, payload_three_fields, getLatLon_three parse h a b hh ha hb,
      getLatLon_three parse h2 a b hh2 ha hb]

/-- Witness of C3: "DDR|notanumber|4.0" fails with the latitude-tagged error and
"DDR|50.858955|4.671778" yields the two numbers as written. -/
theorem getLatLon_on_three_fields_witness :
    getLatLon (ParseFloat decimalAtof) (bytesOf "DDR|notanumber|4.0") =
      .error (Error.wrap
        (Error.external "strconv.ParseFloat: invalid syntax" (bytesOf "notanumber"))
        "invalid latitude in ddr request") ∧
    getLatLon (ParseFloat decimalAtof) (bytesOf "DDR|50.858955|4.671778") =
      .ok { Latitude := .finite ⟨false, 50858955, 6⟩,
            Longitude := .finite ⟨false, 4671778, 6⟩ } :=
  ⟨(getLatLon_on_three_fields (ParseFloat decimalAtof) (bytesOf "DDR") (bytesOf "notanumber")
      (bytesOf "4.0") (by decide) (by decide) (by decide)).1 _ rfl,
   (getLatLon_on_three_fields (ParseFloat decimalAtof) (bytesOf "DDR") (bytesOf "50.858955")
      (bytesOf "4.671778") (by decide) (by decide) (by decide)).2.2.1 _ _ rfl rfl⟩

/-! ## The downlink builder -/

theorem sliceStr_datarate (d : Str) (h : 7 ≤ d.length) :
    sliceStr d 2 ((d.length : Int) - 5) = .returned ((d.drop 2).take (d.length - 7)) := by
  have hc : (0 : Int) ≤ 2 ∧ (2 : Int) ≤ (d.length : Int) - 5 ∧
      (d.length : Int) - 5 ≤ (d.length : Int) := by omega
  have hn : ((d.length : Int) - 5).toNat - (2 : Int).toNat = d.length - 7 := by
    have : (2 : Int).toNat = 2 := rfl
    omega
  simp only [sliceStr, hc, and_self, if_true, hn]
  rfl

theorem sliceStr_short (d : Str) (h : d.length < 7) :
    sliceStr d 2 ((d.length : Int) - 5) = .panicked "slice bounds out of range" := by
  have hc : ¬ ((0 : Int) ≤ 2 ∧ (2 : Int) ≤ (d.length : Int) - 5 ∧
      (d.length : Int) - 5 ≤ (d.length : Int)) := by omega
  simp only [sliceStr, hc, if_false]

theorem generateDownlinkMessage_long (d : Str) (h : 7 ≤ d.length) :
    generateDownlinkMessage { Datarate := d } =
      .returned ({ Port := 1, Confirmed := true,
                   Payload := bytesOf "DDR|" ++ (d.drop 2).take (d.length - 7) }, none) := by
  simp only [generateDownlinkMessage, sliceStr_datarate d h]
  rfl

/-- C4: for a datarate `d` of at least 7 characters `generateDownlinkMessage`
returns, with no error, the message of port 1, confirmed, whose payload is
"DDR|" followed by `d` without its first 2 and its last 5 characters; the
payload has length `4 + len(d) - 7`. -/
theorem generateDownlinkMessage_strips_head_and_tail (d : Str) (h : 7 ≤ d.length) :
    generateDownlinkMessage { Datarate := d } =
      .returned ({ Port := 1, Confirmed := true,
                   Payload := bytesOf "DDR|" ++ (d.drop 2).rdrop 5 }, none) ∧
    (bytesOf "DDR|" ++ (d.drop 2).rdrop 5).length = 4 + d.length - 7 ∧
    (∀ pre mid suf : Str, d = pre ++ mid ++ suf → pre.length = 2 → suf.length = 5 →
      (d.drop 2).rdrop 5 = mid) := by
  have hr : (d.drop 2).rdrop 5 = (d.drop 2).take (d.length - 7) := by
    simp only [List.rdrop, List.length_drop]
    congr 1
  have h4 : (bytesOf "DDR|").length = 4 := by decide
  refine ⟨?_, ?_, ?_⟩
  · rw [hr]
    exact generateDownlinkMessage_long d h
  · rw [hr, List.length_append, h4, List.length_take, List.length_drop]
    omega
  · intro pre mid suf hd hpre hsuf
    subst hd
    rw [List.append_assoc, List.drop_left' hpre]
    simp [List.rdrop, hsuf]

/-- Witness of C4: the datarate "SF7BW125" gives the payload "DDR|7" and
"SF12BW125" gives "DDR|12", both on port 1 and confirmed. -/
theorem generateDownlinkMessage_strips_head_and_tail_witness :
    generateDownlinkMessage { Datarate := bytesOf "SF7BW125" } =
      .returned ({ Port := 1, Confirmed := true, Payload := bytesOf "DDR|7" }, none) ∧
    generateDownlinkMessage { Datarate := bytesOf "SF12BW125" } =
      .returned ({ Port := 1, Confirmed := true, Payload := bytesOf "DDR|12" }, none) :=
  ⟨(generateDownlinkMessage_strips_head_and_tail (bytesOf "SF7BW125") (by decide)).1,
   (generateDownlinkMessage_strips_head_and_tail (bytesOf "SF12BW125") (by decide)).1⟩

/-! ## The handler -/

theorem fields_free_of_separator (h a b : Str)
    (h2 : (h ++ 124 :: (a ++ 124 :: b)).count 124 = 2) :
    124 ∉ h ∧ 124 ∉ a ∧ 124 ∉ b := by
  simp [List.count_append] at h2
  have hh : h.count 124 = 0 := by omega
  have ha : a.count 124 = 0 := by omega
  have hb : b.count 124 = 0 := by omega
  exact ⟨List.count_eq_zero.mp hh, List.count_eq_zero.mp ha, List.count_eq_zero.mp hb⟩

theorem count_of_valid (payload : Str) (hvalid : isValidDDRRequest payload = true) :
    payload.count 124 = 2 := by
  rw [isValidDDRRequest_eq, Bool.and_eq_true, decide_eq_true_eq] at hvalid
  exact hvalid.2

theorem MessageHandler_decode_failure {F : Type} (env : Env F) (topic raw : Str) (e : Error)
    (hdec : env.Unmarshal raw = .error e) :
    MessageHandler env topic raw =
      ⟨[.log .warn "can't unmarshall payload to uplink message" (some e)], .returned ()⟩ := by
  simp only [MessageHandler, getUplinkMessage, hdec]

theorem MessageHandler_not_ddr {F : Type} (env : Env F) (topic raw : Str) (u : UplinkMessage)
    (hdec : env.Unmarshal raw = .ok u) (hvalid : isValidDDRRequest u.Payload = false) :
    MessageHandler env topic raw =
      ⟨[.log .debug "received message other than ddr request" none], .returned ()⟩ := by
  simp [MessageHandler, getUplinkMessage, hdec, hvalid]

theorem MessageHandler_bad_coordinates {F : Type} (env : Env F) (topic raw : Str)
    (u : UplinkMessage) (e : Error)
    (hdec : env.Unmarshal raw = .ok u) (hvalid : isValidDDRRequest u.Payload = true)
    (hcoord : getLatLon env.ParseFloat u.Payload = .error e) :
    MessageHandler env topic raw =
      ⟨[.log .warn "can't retrieve coordinates from ddr request" (some e)], .returned ()⟩ := by
  simp [MessageHandler, getUplinkMessage, hdec, hvalid, hcoord]

theorem MessageHandler_built {F : Type} (env : Env F) (topic raw : Str) (u : UplinkMessage)
    (c : LatLon F) (response : DDRResponse) (downlink : DownlinkMessage)
    (hdec : env.Unmarshal raw = .ok u) (hvalid : isValidDDRRequest u.Payload = true)
    (hcoord : getLatLon env.ParseFloat u.Payload = .ok c)
    (hquery : env.queryDDR c = .ok response)
    (hbuild : generateDownlinkMessage response = .returned (downlink, none)) :
    MessageHandler env topic raw =
      ⟨[.lookup c] ++
        (match (generateDownlinkTopic topic).2 with
          | some e => [.log .warn "could not generate downlink topic" (some e)]
          | none => []) ++
        [.log .debug "set ddr" none, .publish (generateDownlinkTopic topic).1 downlink],
       .returned ()⟩ := by
  simp [MessageHandler, getUplinkMessage, hdec, hvalid, hcoord, hquery, hbuild]

theorem MessageHandler_build_panic {F : Type} (env : Env F) (topic raw : Str)
    (u : UplinkMessage) (c : LatLon F) (response : DDRResponse) (msg : String)
    (hdec : env.Unmarshal raw = .ok u) (hvalid : isValidDDRRequest u.Payload = true)
    (hcoord : getLatLon env.ParseFloat u.Payload = .ok c)
    (hquery : env.queryDDR c = .ok response)
    (hbuild : generateDownlinkMessage response = .panicked msg) :
    MessageHandler env topic raw = ⟨[.lookup c], .panicked msg⟩ := by
  simp [MessageHandler, getUplinkMessage, hdec, hvalid, hcoord, hquery, hbuild]

theorem generateDownlinkTopic_up (p : Str) :
    generateDownlinkTopic (p ++ bytesOf "up") = (p ++ bytesOf "down", none) := by
  have hs : HasSuffix (p ++ bytesOf "up") UPLINKSUFFIX = true :=
    (HasSuffix_iff _ _).mpr ⟨p, rfl⟩
  have hl : UPLINKSUFFIX.length = 2 := by decide
  have hl2 : (bytesOf "up").length = 2 := by decide
  simp [generateDownlinkTopic, hs, TrimSuffix, Join, hl, hl2, DOWNLINKSUFFIX]

theorem generateDownlinkTopic_not_up (topic : Str) (hno : ¬ ∃ p, topic = p ++ bytesOf "up") :
    generateDownlinkTopic topic = ([], some (Error.new "invalid uplink topic")) := by
  have hs : HasSuffix topic UPLINKSUFFIX = false := by
    rw [← Bool.not_eq_true, HasSuffix_iff]
    exact hno
  simp [generateDownlinkTopic, hs]

theorem getLatLon_of_valid_fields {F : Type} (parse : Str → Except Error F)
    (payload h a b : Str) (lat lon : F)
    (hvalid : isValidDDRRequest payload = true)
    (hfields : payload = h ++ bytesOf "|" ++ a ++ bytesOf "|" ++ b)
    (hlat : parse a = .ok lat) (hlon : parse b = .ok lon) :
    getLatLon parse payload = .ok { Latitude := lat, Longitude := lon } := by
  have h2 := count_of_valid payload hvalid
  rw [hfields, payload_three_fields] at h2
  obtain ⟨hh, ha, hb⟩ := fields_free_of_separator h a b h2
  rw [hfields, payload_three_fields, getLatLon_three parse h a b hh ha hb, hlat, hlon]

/-- C5: when the envelope decodes to a payload `h|a|b` accepted by
`isValidDDRRequest` whose fields `a` and `b` parse, the topic is `p ++ "up"` and
the DDR service answers with a datarate `d` of at least 7 characters, the
handler looks the coordinates up once, publishes exactly once, on `p ++ "down"`,
the message of port 1, confirmed, with payload "DDR|" followed by `d` without
its first 2 and last 5 characters, and returns. -/
theorem MessageHandler_success_path {F : Type} (env : Env F) (p raw : Str)
    (uplink : UplinkMessage) (h a b : Str) (lat lon : F) (d : Str)
    (hdec : env.Unmarshal raw = .ok uplink)
    (hvalid : isValidDDRRequest uplink.Payload = true)
    (hfields : uplink.Payload = h ++ bytesOf "|" ++ a ++ bytesOf "|" ++ b)
    (hlat : env.ParseFloat a = .ok lat) (hlon : env.ParseFloat b = .ok lon)
    (hquery : env.queryDDR { Latitude := lat, Longitude := lon } = .ok { Datarate := d })
    (hlen : 7 ≤ d.length) :
    publishes (MessageHandler env (p ++ bytesOf "up") raw).effects =
      [(p ++ bytesOf "down",
        { Port := 1, Confirmed := true, Payload := bytesOf "DDR|" ++ (d.drop 2).rdrop 5 })] ∧
    lookups (MessageHandler env (p ++ bytesOf "up") raw).effects =
      [{ Latitude := lat, Longitude := lon }] ∧
    (MessageHandler env (p ++ bytesOf "up") raw).completion = .returned () := by
  have hr : (d.drop 2).rdrop 5 = (d.drop 2).take (d.length - 7) := by
    simp only [List.rdrop, List.length_drop]
    congr 1
  have hcoord := getLatLon_of_valid_fields env.ParseFloat uplink.Payload h a b lat lon
    hvalid hfields hlat hlon
  have hrun := MessageHandler_built env (p ++ bytesOf "up") raw uplink _ _ _ hdec hvalid hcoord
    hquery (generateDownlinkMessage_long d hlen)
  rw [hrun, generateDownlinkTopic_up, hr]
  exact ⟨rfl, rfl, rfl⟩

/-- Witness of C5: the uplink "DDR|50.858955|4.671778" of the test, on topic
"appid/devices/device1/up" with service answer "SF7BW125", publishes "DDR|7" on
"appid/devices/device1/down". -/
theorem MessageHandler_success_path_witness :
    publishes (MessageHandler (sampleEnv (bytesOf "SF7BW125"))
      (bytesOf "appid/devices/device1/up") (bytesOf "DDR|50.858955|4.671778")).effects =
      [(bytesOf "appid/devices/device1/down",
        { Port := 1, Confirmed := true, Payload := bytesOf "DDR|7" })] :=
  (MessageHandler_success_path (sampleEnv (bytesOf "SF7BW125"))
    (bytesOf "appid/devices/device1/") (bytesOf "DDR|50.858955|4.671778")
    { Port := 1, Payload := bytesOf "DDR|50.858955|4.671778" }
    (bytesOf "DDR") (bytesOf "50.858955") (bytesOf "4.671778")
    (.finite ⟨false, 50858955, 6⟩) (.finite ⟨false, 4671778, 6⟩) (bytesOf "SF7BW125")
    rfl (by decide) (by decide) rfl rfl rfl (by decide)).1

/-- C6: when the envelope fails to decode, or the decoded payload does not start
with "DDR" or does not hold exactly two separators (it is rejected by
`isValidDDRRequest`), or `getLatLon` fails on it, the handler performs no lookup
and no publish, on every topic, and returns. -/
theorem MessageHandler_early_exit {F : Type} (env : Env F) (topic raw : Str)
    (hstop : (∃ e, env.Unmarshal raw = .error e) ∨
      (∃ u, env.Unmarshal raw = .ok u ∧
        ((¬ ∃ rest, u.Payload = bytesOf "DDR" ++ rest) ∨ u.Payload.count '|'.toNat ≠ 2 ∨
          isValidDDRRequest u.Payload = false ∨
          ∃ e, getLatLon env.ParseFloat u.Payload = .error e))) :
    lookups (MessageHandler env topic raw).effects = [] ∧
    publishes (MessageHandler env topic raw).effects = [] ∧
    (MessageHandler env topic raw).completion = .returned () := by
  rcases hstop with ⟨e, hdec⟩ | ⟨u, hdec, hcase⟩
  · rw [MessageHandler_decode_failure env topic raw e hdec]
    exact ⟨rfl, rfl, rfl⟩
  · cases hvalid : isValidDDRRequest u.Payload with
    | false =>
      rw [MessageHandler_not_ddr env topic raw u hdec hvalid]
      exact ⟨rfl, rfl, rfl⟩
    | true =>
      have hv := hvalid
      rw [isValidDDRRequest_eq, Bool.and_eq_true, HasPrefix_iff, decide_eq_true_eq] at hv
      rw [pipe_eq] at hcase
      rcases hcase with hno | hcount | hfalse | ⟨e, hcoord⟩
      · exact absurd hv.1 hno
      · exact absurd hv.2 hcount
      · rw [hvalid] at hfalse
        exact absurd hfalse (by decide)
      · rw [MessageHandler_bad_coordinates env topic raw u e hdec hvalid hcoord]
        exact ⟨rfl, rfl, rfl⟩

/-- Witness of C6: the payloads "hello world" and "DDR|notanumber|4.0" cause no
lookup and no publish. -/
theorem MessageHandler_early_exit_witness :
    (lookups (MessageHandler (sampleEnv (bytesOf "SF7BW125"))
        (bytesOf "appid/devices/device1/up") (bytesOf "hello world")).effects = [] ∧
      publishes (MessageHandler (sampleEnv (bytesOf "SF7BW125"))
        (bytesOf "appid/devices/device1/up") (bytesOf "hello world")).effects = [] ∧
      (MessageHandler (sampleEnv (bytesOf "SF7BW125"))
        (bytesOf "appid/devices/device1/up") (bytesOf "hello world")).completion =
          .returned ()) ∧
    (lookups (MessageHandler (sampleEnv (bytesOf "SF7BW125"))
        (bytesOf "appid/devices/device1/up") (bytesOf "DDR|notanumber|4.0")).effects = [] ∧
      publishes (MessageHandler (sampleEnv (bytesOf "SF7BW125"))
        (bytesOf "appid/devices/device1/up") (bytesOf "DDR|notanumber|4.0")).effects = [] ∧
      (MessageHandler (sampleEnv (bytesOf "SF7BW125"))
        (bytesOf "appid/devices/device1/up") (bytesOf "DDR|notanumber|4.0")).completion =
          .returned ()) :=
  ⟨MessageHandler_early_exit (sampleEnv (bytesOf "SF7BW125"))
      (bytesOf "appid/devices/device1/up") (bytesOf "hello world")
      (Or.inr ⟨{ Port := 1, Payload := bytesOf "hello world" }, rfl,
        Or.inr (Or.inl (by decide))⟩),
   MessageHandler_early_exit (sampleEnv (bytesOf "SF7BW125"))
      (bytesOf "appid/devices/device1/up") (bytesOf "DDR|notanumber|4.0")
      (Or.inr ⟨{ Port := 1, Payload := bytesOf "DDR|notanumber|4.0" }, rfl,
        Or.inr (Or.inr (Or.inr ⟨_, rfl⟩))⟩)⟩

/-- C7: on a service response whose datarate is shorter than 7 characters
`generateDownlinkMessage` does not report an error: its slice expression panics,
and the handler run ends in that panic (after the lookup, without a publish)
rather than returning; shown for every short datarate and evaluated on "SF7"
and on the empty datarate. -/
theorem generateDownlinkMessage_short_datarate_panics :
    (∀ d : Str, d.length < 7 →
      generateDownlinkMessage { Datarate := d } = .panicked "slice bounds out of range") ∧
    generateDownlinkMessage { Datarate := bytesOf "SF7" } =
      .panicked "slice bounds out of range" ∧
    generateDownlinkMessage { Datarate := bytesOf "" } =
      .panicked "slice bounds out of range" ∧
    (MessageHandler (sampleEnv (bytesOf "SF7")) (bytesOf "appid/devices/device1/up")
      (bytesOf "DDR|50.858955|4.671778")).completion =
        .panicked "slice bounds out of range" ∧
    publishes (MessageHandler (sampleEnv (bytesOf "SF7")) (bytesOf "appid/devices/device1/up")
      (bytesOf "DDR|50.858955|4.671778")).effects = [] := by
  refine ⟨?_, by decide, by decide, by decide, by decide⟩
  intro d hd
  simp only [generateDownlinkMessage, sliceStr_short d hd]

/-- C9: when decoding, recognition, coordinate parsing, lookup and build all
succeed but the topic does not end with "up", the handler logs the routing
error and still publishes exactly once: the built downlink message, on the
empty topic that `generateDownlinkTopic` returned next to the error. -/
theorem MessageHandler_publishes_on_empty_topic {F : Type} (env : Env F) (topic raw : Str)
    (uplink : UplinkMessage) (coordinates : LatLon F) (response : DDRResponse)
    (downlink : DownlinkMessage)
    (hdec : env.Unmarshal raw = .ok uplink)
    (hvalid : isValidDDRRequest uplink.Payload = true)
    (hcoord : getLatLon env.ParseFloat uplink.Payload = .ok coordinates)
    (hquery : env.queryDDR coordinates = .ok response)
    (hbuild : generateDownlinkMessage response = .returned (downlink, none))
    (htopic : ¬ ∃ p, topic = p ++ bytesOf "up") :
    publishes (MessageHandler env topic raw).effects = [([], downlink)] ∧
    (MessageHandler env topic raw).effects =
      [.lookup coordinates,
       .log .warn "could not generate downlink topic" (some (Error.new "invalid uplink topic")),
       .log .debug "set ddr" none,
       .publish [] downlink] ∧
    (MessageHandler env topic raw).completion = .returned () := by
  rw [MessageHandler_built env topic raw uplink coordinates response downlink hdec hvalid
    hcoord hquery hbuild, generateDownlinkTopic_not_up topic htopic]
  exact ⟨rfl, rfl, rfl⟩

/-- Witness of C9: the uplink "DDR|50.858955|4.671778" on the topic
"appid/devices/device1/events", with service answer "SF7BW125", publishes
"DDR|7" on the empty topic. -/
theorem MessageHandler_publishes_on_empty_topic_witness :
    publishes (MessageHandler (sampleEnv (bytesOf "SF7BW125"))
      (bytesOf "appid/devices/device1/events") (bytesOf "DDR|50.858955|4.671778")).effects =
      [([], { Port := 1, Confirmed := true, Payload := bytesOf "DDR|7" })] :=
  (MessageHandler_publishes_on_empty_topic (sampleEnv (bytesOf "SF7BW125"))
    (bytesOf "appid/devices/device1/events") (bytesOf "DDR|50.858955|4.671778")
    { Port := 1, Payload := bytesOf "DDR|50.858955|4.671778" }
    { Latitude := .finite ⟨false, 50858955, 6⟩, Longitude := .finite ⟨false, 4671778, 6⟩ }
    { Datarate := bytesOf "SF7BW125" }
    { Port := 1, Confirmed := true, Payload := bytesOf "DDR|7" }
    rfl (by decide) rfl rfl (by decide)
    (by
      rw [← HasSuffix_iff]
      decide)).1

/-! ## The recognizer and the parser -/

theorem getLatLon_invalid_iff {F : Type} (parse : Str → Except Error F) (payload : Str) :
    getLatLon parse payload = .error (Error.new "invalid ddr request") ↔
      payload.count 124 ≠ 2 := by
  constructor
  · intro herr h2
    obtain ⟨h, a, b, hs, hh, ha, hb⟩ := two_occurrences 124 payload h2
    rw [hs, getLatLon_three parse h a b hh ha hb] at herr
    cases hpa : parse a with
    | error e => simp [hpa] at herr
    | ok lat =>
      cases hpb : parse b with
      | error e => simp [hpa, hpb] at herr
      | ok lon => simp [hpa, hpb] at herr
  · intro h2
    have hlen : (Split payload SEPARATOR).length ≠ 3 := by
      rw [SEPARATOR_eq, length_Split_single]
      omega
    simp only [getLatLon]
    split
    · rename_i heq
      rw [heq] at hlen
      exact absurd rfl hlen
    · rfl

theorem first_field_of_valid (payload : Str) (hvalid : isValidDDRRequest payload = true) :
    ∃ f0 f1 f2, payload = f0 ++ 124 :: (f1 ++ 124 :: f2) ∧ 124 ∉ f0 ∧ 124 ∉ f1 ∧ 124 ∉ f2 ∧
      HasPrefix f0 DDRHEADER = true := by
  have h2 := count_of_valid payload hvalid
  obtain ⟨f0, f1, f2, hs, h0, h1, hf2⟩ := two_occurrences 124 payload h2
  refine ⟨f0, f1, f2, hs, h0, h1, hf2, ?_⟩
  rw [isValidDDRRequest_eq, Bool.and_eq_true, HasPrefix_iff] at hvalid
  obtain ⟨⟨rest, hrest⟩, _⟩ := hvalid
  have hD : DDRHEADER = [68, 68, 82] := by decide
  rw [hD] at hrest ⊢
  rw [hs] at hrest
  match f0, hrest with
  | [], hrest => simp at hrest
  | [x], hrest => simp at hrest
  | [x, y], hrest => simp at hrest
  | x :: y :: z :: t, hrest =>
    simp at hrest
    obtain ⟨hx, hy, hz, _⟩ := hrest
    subst hx hy hz
    simp [HasPrefix]

/-- C10: a payload accepted by `isValidDDRRequest` splits on "|" into exactly
three fields, the first of which starts with "DDR"; `getLatLon` returns the
error "invalid ddr request" exactly for the payloads whose number of separators
is not 2, hence never on an accepted payload, and no run of the handler logs
that error from its coordinate step. -/
theorem recognizer_establishes_parser_precondition :
    (∀ payload : Str, isValidDDRRequest payload = true →
      ∃ f0 f1 f2, Split payload SEPARATOR = [f0, f1, f2] ∧
        ∃ rest, f0 = bytesOf "DDR" ++ rest) ∧
    (∀ (F : Type) (parse : Str → Except Error F) (payload : Str),
      getLatLon parse payload = .error (Error.new "invalid ddr request") ↔
        payload.count '|'.toNat ≠ 2) ∧
    (∀ (F : Type) (parse : Str → Except Error F) (payload : Str),
      isValidDDRRequest payload = true →
        getLatLon parse payload ≠ .error (Error.new "invalid ddr request")) ∧
    (∀ (F : Type) (env : Env F) (topic raw : Str),
      Effect.log .warn "can't retrieve coordinates from ddr request"
        (some (Error.new "invalid ddr request")) ∉ (MessageHandler env topic raw).effects) := by
  have part3 : ∀ (F : Type) (parse : Str → Except Error F) (payload : Str),
      isValidDDRRequest payload = true →
        getLatLon parse payload ≠ .error (Error.new "invalid ddr request") := by
    intro F parse payload hvalid herr
    exact (getLatLon_invalid_iff parse payload).mp herr (count_of_valid payload hvalid)
  refine ⟨?_, ?_, part3, ?_⟩
  · intro payload hvalid
    obtain ⟨f0, f1, f2, hs, h0, h1, h2, hp⟩ := first_field_of_valid payload hvalid
    refine ⟨f0, f1, f2, ?_, (HasPrefix_iff _ _).mp hp⟩
    rw [hs, SEPARATOR_eq, Split_three 124 f0 f1 f2 h0 h1 h2]
  · intro F parse payload
    rw [pipe_eq]
    exact getLatLon_invalid_iff parse payload
  · intro F env topic raw hmem
    cases hdec : env.Unmarshal raw with
    | error e =>
      rw [MessageHandler_decode_failure env topic raw e hdec] at hmem
      simp at hmem
    | ok u =>
      cases hvalid : isValidDDRRequest u.Payload with
      | false =>
        rw [MessageHandler_not_ddr env topic raw u hdec hvalid] at hmem
        simp at hmem
      | true =>
        cases hcoord : getLatLon env.ParseFloat u.Payload with
        | error e =>
          rw [MessageHandler_bad_coordinates env topic raw u e hdec hvalid hcoord] at hmem
          simp at hmem
          rw [← hmem] at hcoord
          exact part3 F env.ParseFloat u.Payload hvalid hcoord
        | ok c =>
          cases hquery : env.queryDDR c with
          | error e =>
            simp [MessageHandler, getUplinkMessage, hdec, hvalid, hcoord, hquery] at hmem
          | ok response =>
            cases hbuild : generateDownlinkMessage response with
            | panicked msg =>
              rw [MessageHandler_build_panic env topic raw u c response msg hdec hvalid hcoord
                hquery hbuild] at hmem
              simp at hmem
            | returned r =>
              obtain ⟨downlink, err⟩ := r
              cases err with
              | some e =>
                simp [MessageHandler, getUplinkMessage, hdec, hvalid, hcoord, hquery,
                  hbuild] at hmem
              | none =>
                rw [MessageHandler_built env topic raw u c response downlink hdec hvalid hcoord
                  hquery hbuild] at hmem
                cases hroute : (generateDownlinkTopic topic).2 with
                | none => simp [hroute] at hmem
                | some e => simp [hroute] at hmem

/-! ## Special floating-point values -/

theorem equalIgnoreCase_iff (s t : Str) :
    equalIgnoreCase s t = true ↔ s.map lowerByte = t.map lowerByte := by
  induction s generalizing t with
  | nil => cases t <;> simp [equalIgnoreCase]
  | cons x r ih =>
    cases t with
    | nil => simp [equalIgnoreCase]
    | cons y q => simp [equalIgnoreCase, ih q]

theorem special_isSome_iff {N : Type} (s : Str) :
    (special s : Option (Float64 N)).isSome = true ↔ s.map lowerByte ∈ specialSpellings := by
  have e1 : (bytesOf "nan").map lowerByte = bytesOf "nan" := by decide
  have e2 : (bytesOf "inf").map lowerByte = bytesOf "inf" := by decide
  have e3 : (bytesOf "infinity").map lowerByte = bytesOf "infinity" := by decide
  have e4 : (bytesOf "+inf").map lowerByte = bytesOf "+inf" := by decide
  have e5 : (bytesOf "+infinity").map lowerByte = bytesOf "+infinity" := by decide
  have e6 : (bytesOf "-inf").map lowerByte = bytesOf "-inf" := by decide
  have e7 : (bytesOf "-infinity").map lowerByte = bytesOf "-infinity" := by decide
  unfold special specialSpellings
  simp only [Bool.or_eq_true, equalIgnoreCase_iff, e1, e2, e3, e4, e5, e6, e7]
  split_ifs with h1 h2 h3 h4
  · simp [h1]
  · rcases h2 with h | h <;> simp [h]
  · rcases h3 with h | h <;> simp [h]
  · rcases h4 with h | h <;> simp [h]
  · simp only [not_or] at h2 h3 h4
    simp [h1, h2.1, h2.2, h3.1, h3.2, h4.1, h4.2]

theorem special_not_finite {N : Type} (s : Str) (v : Float64 N) (h : special s = some v) :
    v.isFinite = false := by
  unfold special at h
  split at h
  · cases h; rfl
  · split at h
    · cases h; rfl
    · split at h
      · cases h; rfl
      · split at h
        · cases h; rfl
        · cases h

theorem ParseFloat_ok {N : Type} (atof : Str → Except Error N) (s : Str) (v : Float64 N)
    (h : ParseFloat atof s = .ok v) :
    (v.isFinite = false ∧ (special s : Option (Float64 N)) = some v) ∨
    (∃ x, v = .finite x ∧ (special s : Option (Float64 N)) = none ∧ atof s = .ok x) := by
  unfold ParseFloat at h
  cases hs : (special s : Option (Float64 N)) with
  | some w =>
    rw [hs] at h
    simp at h
    subst h
    exact Or.inl ⟨special_not_finite s w hs, rfl⟩
  | none =>
    rw [hs] at h
    cases ha : atof s with
    | error e => simp [ha] at h
    | ok x =>
      simp [ha] at h
      exact Or.inr ⟨x, h.symm, rfl, rfl⟩

theorem ParseFloat_finite_iff {N : Type} (atof : Str → Except Error N) (s : Str)
    (v : Float64 N) (h : ParseFloat atof s = .ok v) :
    v.isFinite = false ↔ s.map lowerByte ∈ specialSpellings := by
  rw [← @special_isSome_iff N]
  rcases ParseFloat_ok atof s v h with ⟨hf, hs⟩ | ⟨x, hv, hs, _⟩
  · simp [hf, hs]
  · simp [hv, hs, Float64.isFinite]

theorem getLatLon_ok_fields {F : Type} (parse : Str → Except Error F) (payload : Str)
    (c : LatLon F) (hvalid : isValidDDRRequest payload = true)
    (hok : getLatLon parse payload = .ok c) :
    ∃ h a b, payload = h ++ bytesOf "|" ++ a ++ bytesOf "|" ++ b ∧
      parse a = .ok c.Latitude ∧ parse b = .ok c.Longitude := by
  obtain ⟨h, a, b, hs, hh, ha, hb, _⟩ := first_field_of_valid payload hvalid
  refine ⟨h, a, b, by rw [payload_three_fields]; exact hs, ?_⟩
  rw [hs, getLatLon_three parse h a b hh ha hb] at hok
  cases hpa : parse a with
  | error e => simp [hpa] at hok
  | ok lat =>
    cases hpb : parse b with
    | error e => simp [hpa, hpb] at hok
    | ok lon =>
      simp [hpa, hpb] at hok
      subst hok
      exact ⟨rfl, rfl⟩

/-! ## Numerals read by `strconv.ParseFloat` -/

theorem lower_eq_x (x : Nat) : lower x = 120 ↔ (x = 120 ∨ x = 88) := by
  have hsmall : ∀ y, y < 128 → (y ||| 32 = 120 ↔ (y = 120 ∨ y = 88)) := by decide
  unfold lower
  by_cases hx : x < 128
  · exact hsmall x hx
  · constructor
    · intro h
      exfalso
      obtain ⟨i, hi, hbit⟩ := Nat.ge_two_pow_implies_high_bit_true (n := 7) (x := x) (by omega)
      have h120 : (120 : Nat).testBit i = false :=
        Nat.testBit_lt_two_pow (Nat.lt_of_lt_of_le (by decide : (120 : Nat) < 2 ^ 7)
          (Nat.pow_le_pow_right (by decide) hi))
      rw [← h, Nat.testBit_or, hbit] at h120
      simp at h120
    · rintro (h | h) <;> omega

theorem readFloatTail_hex (s : Str) (neg hex : Bool) (st : DigitState) (rest : Str)
    (r : FloatRead) (h : readFloatTail s neg hex st rest = some r) : r.hex = hex := by
  unfold readFloatTail at h
  simp only [] at h
  repeat' split at h
  all_goals first
    | (cases h; done)
    | (injection h with h; rw [← h])

theorem readFloat_hex (s : Str) (r : FloatRead) (h : readFloat s = some r) :
    r.hex = hasHexPrefix s := by
  cases s with
  | nil => simp [readFloat] at h
  | cons c t =>
    simp only [readFloat] at h
    have hh := readFloatTail_hex _ _ _ _ _ _ h
    rw [hh]
    simp only [hasHexPrefix]
    split <;> simp [lower_eq_x, Bool.beq_eq_decide_eq]

theorem atof64_ok {D : Type} (conv : Str → Except Error D) (s : Str) (x : Finite64 D)
    (h : atof64 conv s = .ok x) :
    ∃ r, readFloat s = some r ∧ r.n = s.length ∧
      ((r.hex = true ∧ ∃ bits, atofHex r.mantissa r.exp r.neg r.trunc = (bits, false) ∧
          x = .hexadecimal bits) ∨
       (r.hex = false ∧ ∃ d, conv s = .ok d ∧ x = .decimal d)) := by
  unfold atof64 at h
  cases hr : readFloat s with
  | none => simp [hr] at h
  | some r =>
    rw [hr] at h
    simp only [] at h
    by_cases hn : r.n = s.length
    · refine ⟨r, rfl, hn, ?_⟩
      simp only [hn, ne_eq, not_true_eq_false, if_false] at h
      cases hhex : r.hex with
      | true =>
        rw [hhex] at h
        simp only [if_true] at h
        cases hb : atofHex r.mantissa r.exp r.neg r.trunc with
        | mk bits ovf =>
          rw [hb] at h
          cases ovf with
          | true => simp at h
          | false =>
            simp at h
            exact Or.inl ⟨rfl, bits, rfl, h.symm⟩
      | false =>
        rw [hhex] at h
        simp only [Bool.false_eq_true, if_false] at h
        cases hc : conv s with
        | error e => simp [hc] at h
        | ok d =>
          simp [hc] at h
          exact Or.inr ⟨rfl, d, rfl, h.symm⟩
    · simp [hn] at h

theorem ParseFloat_atof64_origin {D : Type} (conv : Str → Except Error D) (s : Str)
    (v : Float64 (Finite64 D)) (h : ParseFloat (atof64 conv) s = .ok v) :
    FieldOrigin conv s v := by
  rcases ParseFloat_ok (atof64 conv) s v h with ⟨hf, hs⟩ | ⟨x, hv, hs, hx⟩
  · refine Or.inl ⟨?_, hf, hs⟩
    rw [← special_isSome_iff (N := Finite64 D), hs]
    rfl
  · have hnot : s.map lowerByte ∉ specialSpellings := by
      rw [← special_isSome_iff (N := Finite64 D), hs]
      simp
    obtain ⟨r, hr, hn, hcase⟩ := atof64_ok conv s x hx
    have hp := readFloat_hex s r hr
    rcases hcase with ⟨hhex, bits, hb, hxb⟩ | ⟨hhex, d, hd, hxd⟩
    · refine Or.inr (Or.inl ⟨hnot, ?_, r, bits, hr, hn, hhex, hb, ?_⟩)
      · rw [← hp, hhex]
      · rw [hv, hxb]
    · refine Or.inr (Or.inr ⟨hnot, ?_, r, d, hr, hn, hhex, hd, ?_⟩)
      · rw [← hp, hhex]
      · rw [hv, hxd]

theorem ParseFloat_atof64_decimal {D : Type} (conv : Str → Except Error D) (s : Str) (d : D)
    (r : FloatRead) (hs : (special s : Option (Float64 (Finite64 D))) = none)
    (hr : readFloat s = some r) (hn : r.n = s.length) (hhex : r.hex = false)
    (hd : conv s = .ok d) :
    ParseFloat (atof64 conv) s = .ok (.finite (.decimal d)) := by
  simp [ParseFloat, hs, atof64, hr, hn, hhex, hd]

set_option maxRecDepth 100000

/-- C8 fails as stated, in both halves: the accepted payloads
"DDR|Inf|-Infinity" and "DDR|NaN|4.0" make `getLatLon` succeed with infinite
and NaN components, and the accepted payload "DDR|0x1p-2|0X1.8P+1" makes it
succeed with the components 0.25 and 3 read from hexadecimal numerals,
whatever the decimal conversion is. -/
theorem getLatLon_returns_non_finite_and_hexadecimal :
    isValidDDRRequest (bytesOf "DDR|Inf|-Infinity") = true ∧
    getLatLon (ParseFloat decimalAtof) (bytesOf "DDR|Inf|-Infinity") =
      .ok { Latitude := .Inf false, Longitude := .Inf true } ∧
    (Float64.Inf false : Float64 Decimal).isFinite = false ∧
    (Float64.Inf true : Float64 Decimal).isFinite = false ∧
    isValidDDRRequest (bytesOf "DDR|NaN|4.0") = true ∧
    getLatLon (ParseFloat decimalAtof) (bytesOf "DDR|NaN|4.0") =
      .ok { Latitude := .NaN, Longitude := .finite ⟨false, 40, 1⟩ } ∧
    (Float64.NaN : Float64 Decimal).isFinite = false ∧
    (∀ (N : Type) (atof : Str → Except Error N),
      getLatLon (ParseFloat atof) (bytesOf "DDR|Inf|-Infinity") =
        .ok { Latitude := .Inf false, Longitude := .Inf true }) ∧
    isValidDDRRequest (bytesOf "DDR|0x1p-2|0X1.8P+1") = true ∧
    hasHexPrefix (bytesOf "0x1p-2") = true ∧
    hasHexPrefix (bytesOf "0X1.8P+1") = true ∧
    (∀ (D : Type) (conv : Str → Except Error D),
      getLatLon (ParseFloat (atof64 conv)) (bytesOf "DDR|0x1p-2|0X1.8P+1") =
        .ok { Latitude := .finite (.hexadecimal 0x3FD0000000000000),
              Longitude := .finite (.hexadecimal 0x4008000000000000) }) ∧
    (∀ (D : Type) (conv : Str → Except Error D),
      getLatLon (ParseFloat (atof64 conv)) (bytesOf "DDR|NaN|-inf") =
        .ok { Latitude := .NaN, Longitude := .Inf true }) ∧
    (∀ (D : Type) (conv : Str → Except Error D) (d : D), conv (bytesOf "4.0") = .ok d →
      getLatLon (ParseFloat (atof64 conv)) (bytesOf "DDR|NaN|4.0") =
        .ok { Latitude := .NaN, Longitude := .finite (.decimal d) }) :=
  ⟨by decide, rfl, rfl, rfl, by decide, rfl, rfl, fun _ _ => rfl, by decide, by decide,
    by decide, fun _ _ => rfl, fun _ _ => rfl,
    fun D conv d hd =>
      getLatLon_of_valid_fields (ParseFloat (atof64 conv)) (bytesOf "DDR|NaN|4.0")
        (bytesOf "DDR") (bytesOf "NaN") (bytesOf "4.0") .NaN (.finite (.decimal d))
        (by decide) (by decide) rfl (ParseFloat_atof64_decimal conv (bytesOf "4.0") d
          ⟨40, -1, false, false, false, 3⟩ rfl (by decide) rfl rfl hd)⟩

/-- C8 as amended: every `LatLon` that `getLatLon` returns on an accepted
payload `h|a|b` holds exactly what `strconv.ParseFloat` returned for `a` and for
`b`. A component is finite and read from a base-10 decimal numeral, except that
it is NaN or an infinity exactly when its field is, up to case, one of "nan",
"inf", "infinity", "+inf", "+infinity", "-inf", "-infinity", and that it is the
finite float read from a hexadecimal numeral exactly when its field (no special
spelling) starts, after an optional sign, with `0x` or `0X`. -/
theorem getLatLon_components {D : Type} (conv : Str → Except Error D) (payload : Str)
    (c : LatLon (Float64 (Finite64 D)))
    (hvalid : isValidDDRRequest payload = true)
    (hok : getLatLon (ParseFloat (atof64 conv)) payload = .ok c) :
    ∃ h a b, payload = h ++ bytesOf "|" ++ a ++ bytesOf "|" ++ b ∧
      ParseFloat (atof64 conv) a = .ok c.Latitude ∧
      ParseFloat (atof64 conv) b = .ok c.Longitude ∧
      FieldOrigin conv a c.Latitude ∧ FieldOrigin conv b c.Longitude ∧
      (c.Latitude.isFinite = false ↔ a.map lowerByte ∈ specialSpellings) ∧
      (c.Longitude.isFinite = false ↔ b.map lowerByte ∈ specialSpellings) ∧
      ((∃ bits, c.Latitude = .finite (.hexadecimal bits)) ↔
        (a.map lowerByte ∉ specialSpellings ∧ hasHexPrefix a = true)) ∧
      ((∃ bits, c.Longitude = .finite (.hexadecimal bits)) ↔
        (b.map lowerByte ∉ specialSpellings ∧ hasHexPrefix b = true)) ∧
      ((∃ d, c.Latitude = .finite (.decimal d)) ↔
        (a.map lowerByte ∉ specialSpellings ∧ hasHexPrefix a = false)) ∧
      ((∃ d, c.Longitude = .finite (.decimal d)) ↔
        (b.map lowerByte ∉ specialSpellings ∧ hasHexPrefix b = false)) := by
  obtain ⟨h, a, b, hs, hpa, hpb⟩ :=
    getLatLon_ok_fields (ParseFloat (atof64 conv)) payload c hvalid hok
  have key : ∀ (s : Str) (v : Float64 (Finite64 D)), FieldOrigin conv s v →
      ((∃ bits, v = .finite (.hexadecimal bits)) ↔
        (s.map lowerByte ∉ specialSpellings ∧ hasHexPrefix s = true)) ∧
      ((∃ d, v = .finite (.decimal d)) ↔
        (s.map lowerByte ∉ specialSpellings ∧ hasHexPrefix s = false)) := by
    intro s v ho
    rcases ho with ⟨hsp, hf, _⟩ | ⟨hsp, hp, r, bits, _, _, _, _, hv⟩ |
      ⟨hsp, hp, r, d, _, _, _, _, hv⟩
    · constructor
      · constructor
        · rintro ⟨bits, hv⟩
          rw [hv] at hf
          exact absurd hf (by simp [Float64.isFinite])
        · rintro ⟨hn, _⟩
          exact absurd hsp hn
      · constructor
        · rintro ⟨d, hv⟩
          rw [hv] at hf
          exact absurd hf (by simp [Float64.isFinite])
        · rintro ⟨hn, _⟩
          exact absurd hsp hn
    · constructor
      · exact ⟨fun _ => ⟨hsp, hp⟩, fun _ => ⟨bits, hv⟩⟩
      · constructor
        · rintro ⟨d, hd⟩
          rw [hv] at hd
          cases hd
        · rintro ⟨_, hp2⟩
          rw [hp] at hp2
          cases hp2
    · constructor
      · constructor
        · rintro ⟨bits, hb⟩
          rw [hv] at hb
          cases hb
        · rintro ⟨_, hp2⟩
          rw [hp] at hp2
          cases hp2
      · exact ⟨fun _ => ⟨hsp, hp⟩, fun _ => ⟨d, hv⟩⟩
  have oa := ParseFloat_atof64_origin conv a c.Latitude hpa
  have ob := ParseFloat_atof64_origin conv b c.Longitude hpb
  exact ⟨h, a, b, hs, hpa, hpb, oa, ob, ParseFloat_finite_iff _ a _ hpa,
    ParseFloat_finite_iff _ b _ hpb, (key a _ oa).1, (key b _ ob).1, (key a _ oa).2,
    (key b _ ob).2⟩

/-- Witness of C8 as amended, on the payload "DDR|NaN|0x1p-2": the latitude is
NaN and the longitude is 0.25, read from a hexadecimal numeral. -/
theorem getLatLon_components_witness :
    ∃ h a b, bytesOf "DDR|NaN|0x1p-2" = h ++ bytesOf "|" ++ a ++ bytesOf "|" ++ b ∧
      ParseFloat (atof64 decimalAtof) a = .ok Float64.NaN ∧
      ParseFloat (atof64 decimalAtof) b =
        .ok (Float64.finite (Finite64.hexadecimal 0x3FD0000000000000)) ∧
      FieldOrigin decimalAtof a Float64.NaN ∧
      FieldOrigin decimalAtof b (Float64.finite (Finite64.hexadecimal 0x3FD0000000000000)) ∧
      ((Float64.NaN : Float64 (Finite64 Decimal)).isFinite = false ↔
        a.map lowerByte ∈ specialSpellings) ∧
      ((Float64.finite (Finite64.hexadecimal 0x3FD0000000000000 : Finite64 Decimal)).isFinite
          = false ↔ b.map lowerByte ∈ specialSpellings) ∧
      ((∃ bits, (Float64.NaN : Float64 (Finite64 Decimal)) = .finite (.hexadecimal bits)) ↔
        (a.map lowerByte ∉ specialSpellings ∧ hasHexPrefix a = true)) ∧
      ((∃ bits, Float64.finite (Finite64.hexadecimal 0x3FD0000000000000 : Finite64 Decimal) =
          .finite (.hexadecimal bits)) ↔
        (b.map lowerByte ∉ specialSpellings ∧ hasHexPrefix b = true)) ∧
      ((∃ d, (Float64.NaN : Float64 (Finite64 Decimal)) = .finite (.decimal d)) ↔
        (a.map lowerByte ∉ specialSpellings ∧ hasHexPrefix a = false)) ∧
      ((∃ d, Float64.finite (Finite64.hexadecimal 0x3FD0000000000000 : Finite64 Decimal) =
          .finite (.decimal d)) ↔
        (b.map lowerByte ∉ specialSpellings ∧ hasHexPrefix b = false)) :=
  getLatLon_components decimalAtof (bytesOf "DDR|NaN|0x1p-2")
    { Latitude := .NaN, Longitude := .finite (.hexadecimal 0x3FD0000000000000) }
    (by decide) rfl


end LoraDDR
